import Mathlib

/-!
# psstalk: the input dispatch, the render loop and the send workers of `main.go`

A shallow embedding of the three activities of `src/main.go` that the
specification talks about:

* the `termbox.KeyEnter` case of the input loop (lines 161-218), as a function
  `keyEnter` on an explicit machine state that also records, in program order,
  every channel send and every call that leaves the handler;
* the screen update loop (lines 120-136), as `renderStep`;
* the per-peer send workers started by `newProtocol` (lines 268-280) and the
  shared channel `outC` they receive from, as a transition function `step` whose
  moves are picked by the scheduler.

Go's `int` is the 64-bit two's-complement integer: its values are the integers
`n` with `fitsInt n`, and `+`, `-` and `/` are `goAdd`, `goSub` and `goDiv`, which
wrap around; `/` and `%` truncate towards zero (`Int.tdiv`, `Int.tmod`). The
explicit conversion `uint64(..)` is reduction modulo `2 ^ 64`, bytes are `Nat`,
and a run-time panic is the flag `panicked` of the outcome, the state reached
before the panic being kept.
-/

namespace PssTalk

/-- A Go `rune`. -/
abbrev Rune := Char

/-! ## Data model -/

/-- Modelled from the spec: the `TalkSource` of the `term` package, which is not
among the sources. `main.go` reads only its `Nick` (line 180). -/
structure TalkSource where
  Nick : String
deriving DecidableEq

/-- Modelled from the spec: one entry of a Scroll Buffer of the absent `term`
package, an entry of "an ordered sequence of entries": a source that is a
nickname or nil, and a text that is a sequence of characters. -/
structure TalkEntry where
  Source : Option TalkSource
  Content : List Rune
deriving DecidableEq

/-- Modelled from the spec: the Scroll Buffer (`TalkBuffer` of the absent `term`
package), an append-only ordered log of entries. -/
structure TalkBuffer where
  Buffer : List TalkEntry
deriving DecidableEq

/-- Modelled from the spec: `add(source, text)` of the absent `term` package,
"appends an entry". -/
def TalkBuffer.Add (b : TalkBuffer) (src : Option TalkSource) (text : List Rune) : TalkBuffer :=
  ⟨b.Buffer ++ [⟨src, text⟩]⟩

/-- Modelled from the spec: `count()` of the absent `term` package, the "number
of logical entries". -/
def TalkBuffer.Count (b : TalkBuffer) : Int :=
  (b.Buffer.length : Int)

/-- Modelled from the spec: the `TalkClient` made by `term.NewTalkClient(2)` (the
`term` package is absent), as far as `main.go` reads it: the source table
`Sources`, the two Scroll Buffers `Buffers[0]` (local) and `Buffers[1]`
(remote), the `Width` and the two viewport heights `Lines[0]` and `Lines[1]`. -/
structure TalkClient where
  Sources : List TalkSource
  Buffers0 : TalkBuffer
  Buffers1 : TalkBuffer
  Width : Int
  Lines0 : Int
  Lines1 : Int
deriving DecidableEq

/-- Modelled from the spec: the Prompt Buffer `prompt`, declared in a file of
package `main` that is not among the sources: the buffer of characters, the
integer cursor offset `count` and the integer screen row `line`. -/
structure Prompt where
  Buffer : List Rune
  Count : Int
  Line : Int
deriving DecidableEq

/-- Modelled from the spec: `prompt.Reset()`, absent from the sources: "clears
buffer and cursor offset; line is NOT reset here". -/
def Prompt.Reset (p : Prompt) : Prompt :=
  ⟨[], 0, p.Line⟩

/-- The wire message built on lines 177-181 (the type is declared in an absent
file of package `main`; its three fields are the ones of the literal). -/
structure chatMsg where
  Serial : Nat
  Content : List Nat
  Source : String
deriving DecidableEq

/-- Every channel send and every call leaving `main.go` that the three modelled
activities perform. -/
inductive Effect where
  | addPssPeer (potaddr : List Nat)
  | outC (msg : chatMsg)
  | bufAdd (idx : Nat) (src : Option TalkSource) (text : List Rune)
  | meC (line : List Rune)
  | promptReset
  | setCell (x y : Int)
  | promptC
  | otherC (text : List Rune)
  | updateView (idx : Nat) (arg1 arg2 : Int)
  | setCursor (x y : Int)
  | flush
deriving DecidableEq

/-- The globals the input loop works on, and the effects issued so far, oldest
first. -/
structure Machine where
  client : TalkClient
  prompt : Prompt
  trace : List Effect
deriving DecidableEq

/-- What the absent helpers hand to the `KeyEnter` case for one submitted line:
the three results of `client.Process(line)`, the answers of `client.IsAddCmd()`,
`client.IsSendCmd()` and `client.GetCmd()` read after it, and the source that
`randomSrc()` picks. The machine the handler starts from is the one `Process`
left. -/
structure Submission where
  res : String
  payload : String
  err : Option String
  isAdd : Bool
  isSend : Bool
  cmd : List String
  randomSrc : TalkSource
deriving DecidableEq

/-- The state after the `KeyEnter` case, the final values of its locals `res` and
`err`, and whether it stopped in a run-time panic. -/
structure Outcome where
  m : Machine
  res : String
  err : Option String
  panicked : Bool
deriving DecidableEq

/-! ## Library functions used by the handler -/

/-- The UTF-8 bytes of a string, Go's `[]byte(s)`. -/
def bytesOf (s : String) : List Nat :=
  s.toList.flatMap (fun c => (String.utf8EncodeChar c).map UInt8.toNat)

/-- The value of one hexadecimal digit byte, `fromHexChar` of `encoding/hex`. -/
def fromHexChar (c : Nat) : Option Nat :=
  if 48 ≤ c ∧ c ≤ 57 then some (c - 48)
  else if 97 ≤ c ∧ c ≤ 102 then some (c - 97 + 10)
  else if 65 ≤ c ∧ c ≤ 70 then some (c - 65 + 10)
  else none

/-- The loop of `hex.Decode`: the bytes decoded before the first failure, and
whether decoding failed (a byte that is no hex digit, or an odd length). -/
def hexDecode : List Nat → List Nat × Bool
  | p :: q :: rest =>
    match fromHexChar p, fromHexChar q with
    | some a, some b => ((a * 16 + b) :: (hexDecode rest).1, (hexDecode rest).2)
    | _, _ => ([], true)
  | [_] => ([], true)
  | [] => ([], false)

/-- Go's `hex.DecodeString`. -/
def hexDecodeString (s : String) : List Nat × Bool :=
  hexDecode (bytesOf s)

/-- Length of a `pot.Address` (a `common.Hash`) in bytes. -/
def addressLength : Nat := 32

/-- The statements `potaddr := pot.Address{}; copy(potaddr[:], b[:])`: a zero
address whose leading bytes are overwritten by as many bytes of `b` as fit. -/
def copyAddress (b : List Nat) : List Nat :=
  b.take addressLength ++ List.replicate (addressLength - (b.take addressLength).length) 0

/-- Whether an integer is a value of Go's 64-bit `int`, that is, lies between
`-2 ^ 63` and `2 ^ 63 - 1`. -/
def fitsInt (n : Int) : Prop :=
  -9223372036854775808 ≤ n ∧ n < 9223372036854775808

instance (n : Int) : Decidable (fitsInt n) := by
  unfold fitsInt; infer_instance

/-- Two's-complement wrap-around: the value of Go's `int` congruent to `n`
modulo `2 ^ 64`. -/
def wrapInt (n : Int) : Int :=
  (n + 9223372036854775808) % 18446744073709551616 - 9223372036854775808

/-- Go's `a + b` on `int`. -/
def goAdd (a b : Int) : Int :=
  wrapInt (a + b)

/-- Go's `a - b` on `int`. -/
def goSub (a b : Int) : Int :=
  wrapInt (a - b)

/-- Go's `a / b` on `int` for a divisor that is not zero: truncation towards
zero, and the most negative value divided by -1 is itself. -/
def goDiv (a b : Int) : Int :=
  wrapInt (Int.tdiv a b)

/-- Go's `a % b` on `int` for a divisor that is not zero. -/
def goMod (a b : Int) : Int :=
  Int.tmod a b

/-- The conversion `uint64(n)` of a Go `int`. -/
def uint64 (n : Int) : Nat :=
  (n % (2 ^ 64 : Int)).toNat

/-! ## The `KeyEnter` case of the input loop -/

/-- Record one effect. -/
def emit (e : Effect) (m : Machine) : Machine :=
  { m with trace := m.trace ++ [e] }

/-- The call `client.Buffers[0].Add(src, text)`. -/
def addLocal (src : Option TalkSource) (text : List Rune) (m : Machine) : Machine :=
  emit (.bufAdd 0 src text) { m with client := { m.client with Buffers0 := m.client.Buffers0.Add src text } }

/-- The call `client.Buffers[1].Add(src, text)`. -/
def addRemote (src : Option TalkSource) (text : List Rune) (m : Machine) : Machine :=
  emit (.bufAdd 1 src text) { m with client := { m.client with Buffers1 := m.client.Buffers1.Add src text } }

/-- Lines 165-188: the three-way branch on the classification of the line. -/
def dispatch (p : Submission) (line : List Rune) (m : Machine) : Outcome :=
  if p.isAdd then
    match p.cmd[1]? with
    | none => ⟨m, p.res, none, true⟩
    | some a => ⟨emit (.addPssPeer (copyAddress (hexDecodeString a).1)) m, p.res, none, false⟩
  else if p.isSend && m.client.Sources.length == 0 then
    ⟨m, "noone to send to ... add someone first", some "no receivers", false⟩
  else
    let m1 :=
      if p.payload ≠ "" then
        emit (.outC ⟨uint64 m.client.Buffers0.Count, bytesOf p.payload, p.randomSrc.Nick⟩) m
      else m
    ⟨addLocal none line m1, p.res, none, false⟩

/-- Lines 204-206: blank the prompt row, one `termbox.SetCell` per column. -/
def clearPromptLine (m : Machine) : Machine :=
  { m with trace := m.trace ++ (List.range m.client.Width.toNat).map (fun i => Effect.setCell (i : Int) m.prompt.Line) }

/-- Lines 192-195, entered with a non-zero width: the prompt row after
`prompt.Line += (prompt.Count / client.Width) + 1` and the clamp to
`client.Lines[0] - 1`. -/
def nextLine (p : Prompt) (c : TalkClient) : Int :=
  let moved := goAdd p.Line (goAdd (goDiv p.Count c.Width) 1)
  if moved > goSub c.Lines0 1 then goSub c.Lines0 1 else moved

/-- Lines 190-210, entered with a non-zero width: move the prompt line down and
clamp it, trigger the local repaint, reset the prompt, blank its row and trigger
the prompt update. -/
def advancePrompt (line : List Rune) (m : Machine) : Machine :=
  let m1 : Machine := { m with prompt := { m.prompt with Line := nextLine m.prompt m.client } }
  let m2 := emit (.meC line) m1
  let m3 := emit .promptReset { m2 with prompt := m2.prompt.Reset }
  emit .promptC (clearPromptLine m3)

/-- Lines 214-218: a non-empty result string is appended to the remote Scroll
Buffer and the remote repaint is triggered. -/
def showResult (o : Outcome) : Outcome :=
  if 0 < o.res.utf8ByteSize then
    { o with m := emit (.otherC o.res.toList) (addRemote none o.res.toList o.m) }
  else o

/-- The `termbox.KeyEnter` case, lines 161-218. -/
def keyEnter (p : Submission) (m : Machine) : Outcome :=
  let line := m.prompt.Buffer
  match p.err with
  | some e => showResult ⟨m, p.res, some e, false⟩
  | none =>
    let o := dispatch p line m
    if o.panicked then o
    else if o.m.client.Width = 0 then { o with panicked := true }
    else showResult { o with m := advancePrompt line o.m }

/-- The effects one handling of Enter adds to the trace. -/
def issued (p : Submission) (m : Machine) : List Effect :=
  (keyEnter p m).m.trace.drop m.trace.length

/-- The payloads sent on `outC` among a list of effects. -/
def outgoing : List Effect → List chatMsg
  | [] => []
  | .outC msg :: rest => msg :: outgoing rest
  | _ :: rest => outgoing rest

/-- The effects of lines 198-210 in program order, for a prompt row `row`. -/
def promptEffects (line : List Rune) (width row : Int) : List Effect :=
  [Effect.meC line, Effect.promptReset] ++
    (List.range width.toNat).map (fun i => Effect.setCell (i : Int) row) ++ [Effect.promptC]

/-- The effects of lines 214-218 in program order. -/
def resultEffects (res : String) : List Effect :=
  if 0 < res.utf8ByteSize then [Effect.bufAdd 1 none res.toList, Effect.otherC res.toList] else []

/-- The addresses passed to `psc.AddPssPeer` among a list of effects. -/
def peerAdds : List Effect → List (List Nat)
  | [] => []
  | .addPssPeer a :: rest => a :: peerAdds rest
  | _ :: rest => peerAdds rest

/-- The four effects whose order the specification fixes: the call
`client.Buffers[0].Add`, the send on `meC`, `prompt.Reset()` and the send on
`promptC`. -/
def isSequenced : Effect → Bool
  | .bufAdd 0 _ _ => true
  | .meC _ => true
  | .promptReset => true
  | .promptC => true
  | _ => false

/-! ## Sample inputs -/

/-- A machine at start-up: no peers, empty buffers, a 4 by 3 local viewport. -/
def startMachine : Machine :=
  ⟨⟨[], ⟨[]⟩, ⟨[]⟩, 4, 3, 2⟩, ⟨[], 0, 0⟩, []⟩

/-- The start-up machine with `send hello` typed at the prompt. -/
def typedSend : Machine :=
  { startMachine with prompt := ⟨"send hello".toList, 10, 0⟩ }

/-- The line `send hello`, accepted and classified as a send directive. -/
def sendHello : Submission :=
  ⟨"", "hello", none, false, true, ["send", "hello"], ⟨"self"⟩⟩

/-- The empty line, accepted with nothing to show and nothing to send. -/
def emptyLine : Submission :=
  ⟨"", "", none, false, false, [], ⟨"self"⟩⟩

/-- An accepted add-peer directive whose address argument `zz` is not hex. -/
def addBadHex : Submission :=
  ⟨"", "", none, true, false, ["add", "zz"], ⟨"self"⟩⟩

/-- An accepted add-peer directive that lacks its address argument. -/
def addNoArg : Submission :=
  ⟨"", "", none, true, false, ["add"], ⟨"self"⟩⟩

/-- The start-up machine with `hi` typed at the prompt. -/
def typedHi : Machine :=
  { startMachine with prompt := ⟨"hi".toList, 2, 0⟩ }

/-- The machine with `hi` typed and the prompt on the last row an `int` can
number. -/
def typedHiAtMaxLine : Machine :=
  { startMachine with prompt := ⟨"hi".toList, 2, 9223372036854775807⟩ }

/-- The line `hi`, accepted as plain chat text. -/
def plainHi : Submission :=
  ⟨"", "hi", none, false, false, [], ⟨"self"⟩⟩

/-! ## Successive submissions -/

/-- What the other activities have made of the globals when Enter is pressed
again: the prompt as typed since, the source table, and the remote Scroll Buffer.
In `main.go` only line 187 touches `client.Buffers[0]`. -/
structure Round where
  sub : Submission
  prompt : Prompt
  Sources : List TalkSource
  Buffers1 : TalkBuffer
deriving DecidableEq

/-- The machine on which the handler runs in a round. -/
def Round.enter (r : Round) (m : Machine) : Machine :=
  { m with prompt := r.prompt, client := { m.client with Sources := r.Sources, Buffers1 := r.Buffers1 } }

/-- The input loop over a sequence of Enter keys; a panic ends the program. -/
def runEnters : List Round → Machine → Machine
  | [], m => m
  | r :: rs, m =>
    if (keyEnter r.sub (r.enter m)).panicked then (keyEnter r.sub (r.enter m)).m
    else runEnters rs (keyEnter r.sub (r.enter m)).m

/-- The serials of the messages dispatched by a run, oldest first. -/
def serialsOf (rs : List Round) (m : Machine) : List Nat :=
  (outgoing ((runEnters rs m).trace.drop m.trace.length)).map chatMsg.Serial

/-! ## The screen update loop -/

/-- The channel whose receive case the `select` of lines 122-134 takes. -/
inductive Trigger where
  | meC
  | promptC
  | otherC
  | quitC
deriving DecidableEq

/-- The terminal calls of one iteration, the value of `run` after it, and
whether it stopped in a run-time panic. -/
structure Rendered where
  calls : List Effect
  run : Bool
  panicked : Bool
deriving DecidableEq

/-- One iteration of the screen update loop, lines 121-135. -/
def renderStep (t : Trigger) (c : TalkClient) (p : Prompt) : Rendered :=
  match t with
  | .meC => ⟨[.updateView 0 0 (goSub c.Lines0 1), .flush], true, false⟩
  | .promptC =>
    if c.Width = 0 then ⟨[], true, true⟩
    else ⟨[.setCursor (goMod p.Count c.Width) (goAdd p.Line (goDiv p.Count c.Width)), .flush],
      true, false⟩
  | .otherC => ⟨[.updateView 1 (goAdd c.Lines0 1) c.Lines1, .flush], true, false⟩
  | .quitC => ⟨[], false, false⟩

/-- The calls of `updateView` among a list of effects. -/
def repaints : List Effect → List Effect
  | [] => []
  | .updateView i a b :: rest => .updateView i a b :: repaints rest
  | _ :: rest => repaints rest

/-- Modelled from the spec: the screen rows that `updateView(buf, top, bottom)`
repaints; `updateView` is in a file of package `main` that is not among the
sources. The render read is "given a top-row and bottom-row bound", and it
produces the runs "that fall within that window": the rows from `top` to `bottom`,
both included. -/
def updateViewRows (top bottom : Int) : List Int :=
  (List.range (bottom - top + 1).toNat).map (fun i => top + (i : Int))

/-- The screen rows repainted by the `updateView` calls among a list of
effects. -/
def repaintedRows : List Effect → List Int
  | [] => []
  | .updateView _ a b :: rest => updateViewRows a b ++ repaintedRows rest
  | _ :: rest => repaintedRows rest

/-- The largest value of Go's 64-bit `int`. -/
def maxInt : Int := 9223372036854775807

/-- The smallest value of Go's 64-bit `int`. -/
def minInt : Int := -9223372036854775808

/-- Four characters typed, the prompt standing on the last row an `int` can
number. -/
def promptAtMaxLine : Prompt :=
  ⟨"send".toList, 4, maxInt⟩

/-! ## The send workers of `newProtocol` -/

/-- Where a send worker stands in the loop of lines 269-279: blocked in the
receive `msg := <-outC`, holding a received `msg` that it is about to pass to
`pp.Send`, or returned after `pp.Drop`. -/
inductive WorkerPc where
  | receiving
  | sending (msg : chatMsg)
  | exited
deriving DecidableEq

/-- The goroutine of lines 268-280 for one peer (started because `outC` is not
nil): where it stands, the arguments of its `pp.Send` calls, oldest first, and
whether it has called `pp.Drop`. -/
structure SendWorker where
  pc : WorkerPc
  sent : List chatMsg
  dropped : Bool
deriving DecidableEq

/-- A worker that has just been started. -/
def SendWorker.fresh : SendWorker :=
  ⟨.receiving, [], false⟩

/-- The shared channel and its workers: the payloads the input loop places on
`outC`, in order (line 183 blocks on the first until a worker takes it), and one
send worker per connected peer. -/
structure Router where
  pending : List chatMsg
  workers : List SendWorker
deriving DecidableEq

/-- The moves the scheduler can make: worker `i` completes its receive on
`outC`, or worker `i` runs `pp.Send` (which fails or not) and the rest of its
loop body. -/
inductive Action where
  | receive (i : Nat)
  | send (i : Nat) (fails : Bool)
deriving DecidableEq

/-- One move. A value sent on a Go channel is handed to exactly one receiver:
the receive of worker `i` takes the first pending payload off the channel. After
`pp.Send(msg)` the worker goes back to the receive, or on an error calls
`pp.Drop(err)` and returns. A move that is not enabled gives `none`. -/
def step (a : Action) (r : Router) : Option Router :=
  match a with
  | .receive i =>
    match r.pending, r.workers[i]? with
    | msg :: rest, some w =>
      if w.pc = .receiving then some ⟨rest, r.workers.set i ⟨.sending msg, w.sent, w.dropped⟩⟩
      else none
    | _, _ => none
  | .send i fails =>
    match r.workers[i]? with
    | some ⟨.sending msg, sent, dropped⟩ =>
      some ⟨r.pending, r.workers.set i
        (if fails then ⟨.exited, sent ++ [msg], true⟩ else ⟨.receiving, sent ++ [msg], dropped⟩)⟩
    | _ => none

/-- A schedule of moves. -/
def run : List Action → Router → Option Router
  | [], r => some r
  | a :: rest, r =>
    match step a r with
    | some r1 => run rest r1
    | none => none

/-- Whether the worker holds `msg`, received and not yet passed to `pp.Send`. -/
def SendWorker.holds (msg : chatMsg) (w : SendWorker) : Nat :=
  if w.pc = .sending msg then 1 else 0

/-- The number of `pp.Send(msg)` calls made so far by all workers. -/
def sendsOf (msg : chatMsg) (r : Router) : Nat :=
  (r.workers.map (fun w => w.sent.count msg)).sum

/-- The copies of `msg` a worker has had in its hands: held, or passed to
`pp.Send`. -/
def SendWorker.handled (msg : chatMsg) (w : SendWorker) : Nat :=
  w.holds msg + w.sent.count msg

/-- The copies of `msg` in the system: still to be taken off the channel, held by
a worker, or already passed to `pp.Send`. -/
def accounted (msg : chatMsg) (r : Router) : Nat :=
  r.pending.count msg + (r.workers.map (SendWorker.handled msg)).sum

/-- Whether the worker holds a payload it has not yet passed to `pp.Send`. -/
def WorkerPc.isSending : WorkerPc → Bool
  | .sending _ => true
  | _ => false

/-- Nothing is left on the channel and no worker holds a payload. -/
def quiescent (r : Router) : Bool :=
  r.pending.isEmpty && r.workers.all (fun w => !w.pc.isSending)

/-- A payload as the `KeyEnter` case builds it for the first line `hi`. -/
def firstHi : chatMsg :=
  ⟨0, [104, 105], "self"⟩

/-- Two connected peers, one payload placed on `outC`. -/
def twoPeers : Router :=
  ⟨[firstHi], [SendWorker.fresh, SendWorker.fresh]⟩

/-! # Theorems -/

/-! ## Go's integer arithmetic -/

theorem wrapInt_of_fits (n : Int) (h : fitsInt n) : wrapInt n = n := by
  unfold fitsInt at h
  unfold wrapInt
  omega

theorem wrapInt_add_wrapInt (a b : Int) : wrapInt (a + wrapInt b) = wrapInt (a + b) := by
  unfold wrapInt
  omega

theorem clamp_eq_min (a b : Int) : (if a > b then b else a) = min a b := by
  rw [min_def]
  split_ifs <;> omega

/-- Where nothing overflows, lines 192-195 compute min(line + count / width + 1,
L0 - 1). -/
theorem nextLine_eq_min (p : Prompt) (c : TalkClient)
    (h1 : fitsInt (p.Line + Int.tdiv p.Count c.Width + 1)) (h2 : fitsInt (c.Lines0 - 1)) :
    nextLine p c = min (p.Line + Int.tdiv p.Count c.Width + 1) (c.Lines0 - 1) := by
  unfold nextLine goAdd goSub goDiv
  generalize Int.tdiv p.Count c.Width = q at h1 ⊢
  have e1 : wrapInt (p.Line + wrapInt (wrapInt q + 1)) = p.Line + q + 1 := by
    unfold fitsInt at h1
    unfold wrapInt
    omega
  have e2 : wrapInt (c.Lines0 - 1) = c.Lines0 - 1 := wrapInt_of_fits _ h2
  simp only [e1, e2]
  exact clamp_eq_min _ _

/-! ## Projections of the building blocks -/

theorem outgoing_append (xs ys : List Effect) :
    outgoing (xs ++ ys) = outgoing xs ++ outgoing ys := by
  induction xs with
  | nil => rfl
  | cons x xs ih => cases x <;> simp [outgoing, ih]

theorem outgoing_setCells (l : List Nat) (y : Int) :
    outgoing (l.map (fun i => Effect.setCell (i : Int) y)) = [] := by
  induction l with
  | nil => rfl
  | cons x xs ih => simp only [List.map, outgoing]; exact ih

theorem outgoing_promptEffects (line : List Rune) (width row : Int) :
    outgoing (promptEffects line width row) = [] := by
  unfold promptEffects
  rw [outgoing_append, outgoing_append, outgoing_setCells]
  rfl

theorem outgoing_resultEffects (res : String) : outgoing (resultEffects res) = [] := by
  unfold resultEffects; split <;> rfl

theorem peerAdds_append (xs ys : List Effect) :
    peerAdds (xs ++ ys) = peerAdds xs ++ peerAdds ys := by
  induction xs with
  | nil => rfl
  | cons x xs ih => cases x <;> simp [peerAdds, ih]

theorem peerAdds_setCells (l : List Nat) (y : Int) :
    peerAdds (l.map (fun i => Effect.setCell (i : Int) y)) = [] := by
  induction l with
  | nil => rfl
  | cons x xs ih => simp only [List.map, peerAdds]; exact ih

theorem peerAdds_promptEffects (line : List Rune) (width row : Int) :
    peerAdds (promptEffects line width row) = [] := by
  unfold promptEffects
  rw [peerAdds_append, peerAdds_append, peerAdds_setCells]
  rfl

theorem peerAdds_resultEffects (res : String) : peerAdds (resultEffects res) = [] := by
  unfold resultEffects; split <;> rfl

@[simp]
theorem emit_client (e : Effect) (m : Machine) : (emit e m).client = m.client := rfl

@[simp]
theorem emit_prompt (e : Effect) (m : Machine) : (emit e m).prompt = m.prompt := rfl

@[simp]
theorem emit_trace (e : Effect) (m : Machine) : (emit e m).trace = m.trace ++ [e] := rfl

@[simp]
theorem advancePrompt_client (line : List Rune) (m : Machine) :
    (advancePrompt line m).client = m.client := rfl

@[simp]
theorem advancePrompt_prompt (line : List Rune) (m : Machine) :
    (advancePrompt line m).prompt = ⟨[], 0, nextLine m.prompt m.client⟩ := rfl

theorem advancePrompt_trace (line : List Rune) (m : Machine) :
    (advancePrompt line m).trace =
      m.trace ++ promptEffects line m.client.Width (advancePrompt line m).prompt.Line := by
  simp [advancePrompt, emit, clearPromptLine, Prompt.Reset, promptEffects]

@[simp]
theorem showResult_res (o : Outcome) : (showResult o).res = o.res := by
  unfold showResult; split <;> rfl

@[simp]
theorem showResult_err (o : Outcome) : (showResult o).err = o.err := by
  unfold showResult; split <;> rfl

@[simp]
theorem showResult_panicked (o : Outcome) : (showResult o).panicked = o.panicked := by
  unfold showResult; split <;> rfl

@[simp]
theorem showResult_prompt (o : Outcome) : (showResult o).m.prompt = o.m.prompt := by
  unfold showResult; split <;> rfl

@[simp]
theorem showResult_local (o : Outcome) :
    (showResult o).m.client.Buffers0 = o.m.client.Buffers0 := by
  unfold showResult; split <;> rfl

@[simp]
theorem showResult_sources (o : Outcome) :
    (showResult o).m.client.Sources = o.m.client.Sources := by
  unfold showResult; split <;> rfl

theorem showResult_remote (o : Outcome) :
    (showResult o).m.client.Buffers1 =
      if 0 < o.res.utf8ByteSize then o.m.client.Buffers1.Add none o.res.toList
      else o.m.client.Buffers1 := by
  unfold showResult; split <;> rfl

theorem showResult_trace (o : Outcome) :
    (showResult o).m.trace = o.m.trace ++ resultEffects o.res := by
  unfold showResult resultEffects; split <;> simp [addRemote]

/-! ## What the three-way branch leaves alone -/

@[simp]
theorem dispatch_prompt (p : Submission) (line : List Rune) (m : Machine) :
    (dispatch p line m).m.prompt = m.prompt := by
  unfold dispatch
  split
  · split <;> rfl
  · split
    · rfl
    · simp only [addLocal, emit_prompt]
      split <;> rfl

@[simp]
theorem dispatch_width (p : Submission) (line : List Rune) (m : Machine) :
    (dispatch p line m).m.client.Width = m.client.Width := by
  unfold dispatch
  split
  · split <;> rfl
  · split
    · rfl
    · simp only [addLocal, emit_client]
      split <;> rfl

@[simp]
theorem dispatch_lines0 (p : Submission) (line : List Rune) (m : Machine) :
    (dispatch p line m).m.client.Lines0 = m.client.Lines0 := by
  unfold dispatch
  split
  · split <;> rfl
  · split
    · rfl
    · simp only [addLocal, emit_client]
      split <;> rfl

theorem dispatch_panicked (p : Submission) (line : List Rune) (m : Machine)
    (harg : p.isAdd = true → 2 ≤ p.cmd.length) : (dispatch p line m).panicked = false := by
  unfold dispatch
  split
  · rename_i hadd
    have h2 := harg hadd
    have : p.cmd[1]? = some (p.cmd[1]) := List.getElem?_eq_getElem (by omega)
    rw [this]
  · split <;> rfl

/-! ## The handler, branch by branch -/

theorem keyEnter_rejected (p : Submission) (m : Machine) (e : String) (h : p.err = some e) :
    keyEnter p m = showResult ⟨m, p.res, some e, false⟩ := by
  simp [keyEnter, h]

theorem keyEnter_noReceivers (p : Submission) (m : Machine)
    (hacc : p.err = none) (hadd : p.isAdd = false) (hsend : p.isSend = true)
    (hnone : m.client.Sources = []) (hw : m.client.Width ≠ 0) :
    keyEnter p m = showResult ⟨advancePrompt m.prompt.Buffer m,
      "noone to send to ... add someone first", some "no receivers", false⟩ := by
  simp [keyEnter, dispatch, hacc, hadd, hsend, hnone, hw]

theorem keyEnter_returns (p : Submission) (m : Machine) (hacc : p.err = none)
    (hp : (dispatch p m.prompt.Buffer m).panicked = false) (hw : m.client.Width ≠ 0) :
    keyEnter p m = showResult { dispatch p m.prompt.Buffer m with
      m := advancePrompt m.prompt.Buffer (dispatch p m.prompt.Buffer m).m } := by
  simp [keyEnter, hacc, hp, hw]

theorem dispatch_plain (p : Submission) (line : List Rune) (m : Machine)
    (hadd : p.isAdd = false) (hrecv : p.isSend = true → m.client.Sources ≠ []) :
    dispatch p line m = ⟨addLocal none line
      (if p.payload ≠ "" then
        emit (.outC ⟨uint64 m.client.Buffers0.Count, bytesOf p.payload, p.randomSrc.Nick⟩) m
      else m), p.res, none, false⟩ := by
  have hcond : (p.isSend && m.client.Sources.length == 0) = false := by
    cases hs : p.isSend
    · rfl
    · have := hrecv hs
      simpa using this
  simp [dispatch, hadd, hcond]

theorem keyEnter_plain (p : Submission) (m : Machine)
    (hacc : p.err = none) (hadd : p.isAdd = false)
    (hrecv : p.isSend = true → m.client.Sources ≠ []) (hw : m.client.Width ≠ 0) :
    keyEnter p m = showResult ⟨advancePrompt m.prompt.Buffer (addLocal none m.prompt.Buffer
      (if p.payload ≠ "" then
        emit (.outC ⟨uint64 m.client.Buffers0.Count, bytesOf p.payload, p.randomSrc.Nick⟩) m
      else m)), p.res, none, false⟩ := by
  have hd := dispatch_plain p m.prompt.Buffer m hadd hrecv
  rw [keyEnter_returns p m hacc (by rw [hd]) hw, hd]

/-- The effects after the three-way branch: none of them is a send on `outC`, and
the local Scroll Buffer is the one the branch left. -/
theorem keyEnter_after_dispatch (p : Submission) (m : Machine) (hacc : p.err = none) :
    ∃ tl, (keyEnter p m).m.trace = (dispatch p m.prompt.Buffer m).m.trace ++ tl ∧
      outgoing tl = [] ∧
      (keyEnter p m).m.client.Buffers0 = (dispatch p m.prompt.Buffer m).m.client.Buffers0 ∧
      peerAdds tl = [] ∧ (keyEnter p m).res = (dispatch p m.prompt.Buffer m).res := by
  unfold keyEnter
  simp only [hacc]
  by_cases hp : (dispatch p m.prompt.Buffer m).panicked = true
  · exact ⟨[], by simp [hp], rfl, by simp [hp], rfl, by simp [hp]⟩
  · by_cases hw : m.client.Width = 0
    · exact ⟨[], by simp [hp, hw], rfl, by simp [hp, hw], rfl, by simp [hp, hw]⟩
    · refine ⟨promptEffects m.prompt.Buffer m.client.Width
          (advancePrompt m.prompt.Buffer (dispatch p m.prompt.Buffer m).m).prompt.Line ++
          resultEffects (dispatch p m.prompt.Buffer m).res, ?_, ?_, ?_, ?_, ?_⟩
      · simp only [hp, hw, Bool.false_eq_true, if_false, showResult_trace, advancePrompt_trace,
          List.append_assoc, dispatch_width]
      · simp only [outgoing_append, outgoing_promptEffects, outgoing_resultEffects, List.append_nil]
      · simp [hp, hw]
      · simp only [peerAdds_append, peerAdds_promptEffects, peerAdds_resultEffects, List.append_nil]
      · simp [hp, hw]

theorem keyEnter_rejected_trace (p : Submission) (m : Machine) (e : String) (h : p.err = some e) :
    (keyEnter p m).m.trace = m.trace ++ resultEffects p.res := by
  rw [keyEnter_rejected p m e h, showResult_trace]

theorem issued_of_trace (p : Submission) (m : Machine) (evs : List Effect)
    (h : (keyEnter p m).m.trace = m.trace ++ evs) : issued p m = evs := by
  simp [issued, h]

/-- With an empty source table a send directive leaves the three-way branch
without a send on `outC` and without touching the local Scroll Buffer. -/
theorem dispatch_noReceivers (p : Submission) (line : List Rune) (m : Machine)
    (hsend : p.isSend = true) (hnone : m.client.Sources = []) :
    ∃ hd, (dispatch p line m).m.trace = m.trace ++ hd ∧ outgoing hd = [] ∧
      (dispatch p line m).m.client.Buffers0 = m.client.Buffers0 := by
  unfold dispatch
  cases hadd : p.isAdd
  · exact ⟨[], by simp [hsend, hnone], rfl, by simp [hsend, hnone]⟩
  · cases harg : p.cmd[1]? with
    | none => exact ⟨[], by simp, rfl, by simp⟩
    | some a => exact ⟨[Effect.addPssPeer (copyAddress (hexDecodeString a).1)], by simp, rfl, by simp⟩

/-- C1: when the command processor accepts a line that is classified as a send
directive and the source table has no registered peer, handling Enter sends
nothing on the outgoing-payload channel `outC` and leaves the local Scroll Buffer
`client.Buffers[0]` with exactly the entries it had; and the handler does return
(no panic) when the line is not also an add directive and the width is not
zero. -/
theorem send_without_receivers_sends_nothing (p : Submission) (m : Machine)
    (hacc : p.err = none) (hsend : p.isSend = true) (hnone : m.client.Sources = []) :
    outgoing (issued p m) = [] ∧
    (keyEnter p m).m.client.Buffers0 = m.client.Buffers0 ∧
    (p.isAdd = false → m.client.Width ≠ 0 → (keyEnter p m).panicked = false) := by
  obtain ⟨tl, htl, hout, hloc, _, _⟩ := keyEnter_after_dispatch p m hacc
  obtain ⟨hd, hhd, hout2, hloc2⟩ := dispatch_noReceivers p m.prompt.Buffer m hsend hnone
  refine ⟨?_, ?_, ?_⟩
  · rw [issued_of_trace p m (hd ++ tl) (by rw [htl, hhd, List.append_assoc]), outgoing_append,
      hout, hout2]
    rfl
  · rw [hloc, hloc2]
  · intro hadd hw
    rw [keyEnter_noReceivers p m hacc hadd hsend hnone hw]
    simp

/-- Witness of C1: `send hello` submitted with no peer registered. -/
theorem send_without_receivers_sends_nothing_witness :
    outgoing (issued sendHello typedSend) = [] ∧
    (keyEnter sendHello typedSend).m.client.Buffers0 = typedSend.client.Buffers0 ∧
    (sendHello.isAdd = false → typedSend.client.Width ≠ 0 →
      (keyEnter sendHello typedSend).panicked = false) :=
  send_without_receivers_sends_nothing sendHello typedSend rfl rfl rfl

/-- Counterexample to C2 as stated: `send hello` submitted with no peer
registered. The result string, which is the text appended to the remote Scroll
Buffer, is not "no receivers"; that text is only the message of the error
value. -/
theorem noReceivers_result_is_not_no_receivers :
    sendHello.err = none ∧ sendHello.isSend = true ∧ typedSend.client.Sources = [] ∧
    (keyEnter sendHello typedSend).res ≠ "no receivers" ∧
    (keyEnter sendHello typedSend).m.client.Buffers1.Buffer ≠ [⟨none, "no receivers".toList⟩] ∧
    (keyEnter sendHello typedSend).m.client.Buffers1.Buffer =
      [⟨none, "noone to send to ... add someone first".toList⟩] := by
  decide

/-- C2, amended: when the command processor accepts a line classified as a send
directive (and not as an add directive), the source table has no registered peer
and the width is not zero, the handler returns, its result string is exactly
"noone to send to ... add someone first", that string is what is appended to the
remote Scroll Buffer as the system message, and "no receivers" is the text of the
error value it assigns. -/
theorem noReceivers_result (p : Submission) (m : Machine)
    (hacc : p.err = none) (hadd : p.isAdd = false) (hsend : p.isSend = true)
    (hnone : m.client.Sources = []) (hw : m.client.Width ≠ 0) :
    (keyEnter p m).panicked = false ∧
    (keyEnter p m).res = "noone to send to ... add someone first" ∧
    (keyEnter p m).err = some "no receivers" ∧
    (keyEnter p m).m.client.Buffers1 =
      m.client.Buffers1.Add none "noone to send to ... add someone first".toList := by
  rw [keyEnter_noReceivers p m hacc hadd hsend hnone hw]
  refine ⟨by simp, by simp, by simp, ?_⟩
  rw [showResult_remote]
  exact if_pos (show 0 < "noone to send to ... add someone first".utf8ByteSize by decide)

/-- Witness of the amended C2: `send hello` submitted with no peer registered. -/
theorem noReceivers_result_witness :
    (keyEnter sendHello typedSend).panicked = false ∧
    (keyEnter sendHello typedSend).res = "noone to send to ... add someone first" ∧
    (keyEnter sendHello typedSend).err = some "no receivers" ∧
    (keyEnter sendHello typedSend).m.client.Buffers1 =
      typedSend.client.Buffers1.Add none "noone to send to ... add someone first".toList :=
  noReceivers_result sendHello typedSend rfl rfl rfl rfl (by decide)

/-- Counterexample to C8 as stated. An accepted add-peer directive that lacks
its address argument, with width 4: the handler panics at `args[1]` before it
reaches the prompt line, which stays on row 0 where the formula gives 1. And
`hi` accepted with the prompt on the last row an `int` can number: the sum wraps
around to the smallest `int`, which is not clamped, where the formula gives 2. -/
theorem prompt_line_not_always_min :
    addNoArg.err = none ∧ 0 < startMachine.client.Width ∧
    (keyEnter addNoArg startMachine).panicked = true ∧
    (keyEnter addNoArg startMachine).m.prompt.Line = 0 ∧
    min (startMachine.prompt.Line +
      Int.tdiv startMachine.prompt.Count startMachine.client.Width + 1)
      (startMachine.client.Lines0 - 1) = 1 ∧
    plainHi.err = none ∧ 0 < typedHiAtMaxLine.client.Width ∧
    fitsInt typedHiAtMaxLine.prompt.Line ∧
    (keyEnter plainHi typedHiAtMaxLine).panicked = false ∧
    (keyEnter plainHi typedHiAtMaxLine).m.prompt.Line = minInt ∧
    min (typedHiAtMaxLine.prompt.Line +
      Int.tdiv typedHiAtMaxLine.prompt.Count typedHiAtMaxLine.client.Width + 1)
      (typedHiAtMaxLine.client.Lines0 - 1) = 2 := by
  decide

/-- C8, amended: for every accepted submission in which an add directive carries
its address argument, with a width greater than zero, and with line + count /
width + 1 and L0 - 1 within the range of Go's 64-bit int, the handler returns and
the prompt line afterwards is min(line + count / width + 1, L0 - 1), with Go's
truncating division; so it is at most the bottom row L0 - 1 of the local
viewport, and the prompt reset performed later in the handler does not move it
back. -/
theorem prompt_line_after_submit (p : Submission) (m : Machine)
    (hacc : p.err = none) (hw : 0 < m.client.Width)
    (harg : p.isAdd = true → 2 ≤ p.cmd.length)
    (hfit : fitsInt (m.prompt.Line + Int.tdiv m.prompt.Count m.client.Width + 1))
    (hbot : fitsInt (m.client.Lines0 - 1)) :
    (keyEnter p m).panicked = false ∧
    (keyEnter p m).m.prompt.Line =
      min (m.prompt.Line + Int.tdiv m.prompt.Count m.client.Width + 1) (m.client.Lines0 - 1) ∧
    (keyEnter p m).m.prompt.Line ≤ m.client.Lines0 - 1 := by
  have hp := dispatch_panicked p m.prompt.Buffer m harg
  have hline : (keyEnter p m).m.prompt.Line =
      min (m.prompt.Line + Int.tdiv m.prompt.Count m.client.Width + 1) (m.client.Lines0 - 1) := by
    rw [keyEnter_returns p m hacc hp (by omega)]
    simp only [showResult_prompt, advancePrompt_prompt, dispatch_prompt]
    rw [nextLine_eq_min _ _ (by simpa using hfit) (by simpa using hbot)]
    simp
  refine ⟨?_, hline, ?_⟩
  · rw [keyEnter_returns p m hacc hp (by omega)]
    simpa using hp
  · rw [hline]
    exact min_le_right _ _

/-- Witness of the amended C8: `hi` submitted on the first row of a 4 by 3 local
viewport. -/
theorem prompt_line_after_submit_witness :
    (keyEnter plainHi typedHi).panicked = false ∧
    (keyEnter plainHi typedHi).m.prompt.Line =
      min (typedHi.prompt.Line + Int.tdiv typedHi.prompt.Count typedHi.client.Width + 1)
        (typedHi.client.Lines0 - 1) ∧
    (keyEnter plainHi typedHi).m.prompt.Line ≤ typedHi.client.Lines0 - 1 :=
  prompt_line_after_submit plainHi typedHi rfl (by decide) (by decide) (by decide) (by decide)

/-! ## The order of the effects of a plain-text submission -/

theorem filter_setCells (l : List Nat) (y : Int) :
    (l.map (fun i => Effect.setCell (i : Int) y)).filter (fun e => isSequenced e) = [] := by
  induction l with
  | nil => rfl
  | cons x xs ih => simp only [List.map, List.filter, isSequenced]; exact ih

theorem filter_promptEffects (line : List Rune) (width row : Int) :
    (promptEffects line width row).filter (fun e => isSequenced e) =
      [Effect.meC line, Effect.promptReset, Effect.promptC] := by
  unfold promptEffects
  rw [List.filter_append, List.filter_append, filter_setCells]
  rfl

theorem filter_resultEffects (res : String) :
    (resultEffects res).filter (fun e => isSequenced e) = [] := by
  unfold resultEffects; split <;> rfl

/-- The effects of an accepted submission that reaches the last branch. -/
theorem issued_plain (p : Submission) (m : Machine)
    (hacc : p.err = none) (hadd : p.isAdd = false)
    (hrecv : p.isSend = true → m.client.Sources ≠ []) (hw : m.client.Width ≠ 0) :
    issued p m =
      (if p.payload ≠ "" then
        [Effect.outC ⟨uint64 m.client.Buffers0.Count, bytesOf p.payload, p.randomSrc.Nick⟩]
       else []) ++
      ([Effect.bufAdd 0 none m.prompt.Buffer] ++
        (promptEffects m.prompt.Buffer m.client.Width (keyEnter p m).m.prompt.Line ++
          resultEffects p.res)) := by
  apply issued_of_trace
  rw [keyEnter_plain p m hacc hadd hrecv hw]
  simp only [showResult_trace, showResult_prompt, advancePrompt_trace, addLocal, emit_trace,
    emit_client, emit_prompt, advancePrompt_prompt]
  split <;> simp

/-- C9: for every accepted plain-text submission (width not zero, so that the
handler runs to its end) the handler returns, and among the effects it issues the
append of the line to the local Scroll Buffer, the send on `meC`, the prompt
reset and the send on `promptC` occur once each and in this order, whatever the
line is. -/
theorem submit_effect_order (p : Submission) (m : Machine)
    (hacc : p.err = none) (hadd : p.isAdd = false) (hsend : p.isSend = false)
    (hw : m.client.Width ≠ 0) :
    (keyEnter p m).panicked = false ∧
    (issued p m).filter (fun e => isSequenced e) =
      [Effect.bufAdd 0 none m.prompt.Buffer, Effect.meC m.prompt.Buffer, Effect.promptReset,
        Effect.promptC] := by
  have hrecv : p.isSend = true → m.client.Sources ≠ [] := by simp [hsend]
  constructor
  · rw [keyEnter_plain p m hacc hadd hrecv hw]
    simp
  · rw [issued_plain p m hacc hadd hrecv hw]
    simp only [List.filter_append, filter_promptEffects, filter_resultEffects]
    split <;> rfl

/-- Witness of C9: `hi` submitted as plain text. -/
theorem submit_effect_order_witness :
    (keyEnter plainHi typedHi).panicked = false ∧
    (issued plainHi typedHi).filter (fun e => isSequenced e) =
      [Effect.bufAdd 0 none typedHi.prompt.Buffer, Effect.meC typedHi.prompt.Buffer,
        Effect.promptReset, Effect.promptC] :=
  submit_effect_order plainHi typedHi rfl rfl rfl (by decide)

/-- Counterexample to C3 as stated: Enter on an empty prompt at start-up, the
empty line being accepted with nothing to show and nothing to send. The local
Scroll Buffer gains an entry and the prompt line moves from row 0 to row 1. -/
theorem empty_line_changes_local_buffer :
    emptyLine.err = none ∧ emptyLine.res = "" ∧ emptyLine.payload = "" ∧
    emptyLine.isAdd = false ∧ emptyLine.isSend = false ∧ startMachine.prompt.Buffer = [] ∧
    (keyEnter emptyLine startMachine).panicked = false ∧
    startMachine.client.Buffers0.Buffer = [] ∧
    (keyEnter emptyLine startMachine).m.client.Buffers0.Buffer = [⟨none, []⟩] ∧
    startMachine.prompt.Line = 0 ∧
    (keyEnter emptyLine startMachine).m.prompt.Line = 1 := by
  decide

/-- C3, amended: submitting an empty prompt line (accepted with empty result,
empty payload and neither add nor send classification) with a width that is not
zero returns, sends nothing on `outC` and leaves the remote Scroll Buffer and the
source table unchanged; it appends one entry with no source and empty text to
the local Scroll Buffer, clears the prompt buffer and count, and moves the prompt
line, to min(line + count / width + 1, L0 - 1) whenever these two quantities are
within the range of Go's 64-bit int. -/
theorem empty_line_effect (p : Submission) (m : Machine)
    (hacc : p.err = none) (hres : p.res = "") (hpay : p.payload = "")
    (hadd : p.isAdd = false) (hsend : p.isSend = false) (hbuf : m.prompt.Buffer = [])
    (hw : m.client.Width ≠ 0) :
    (keyEnter p m).panicked = false ∧
    outgoing (issued p m) = [] ∧
    (keyEnter p m).m.client.Buffers1 = m.client.Buffers1 ∧
    (keyEnter p m).m.client.Sources = m.client.Sources ∧
    (keyEnter p m).m.client.Buffers0 = m.client.Buffers0.Add none [] ∧
    (keyEnter p m).m.prompt.Buffer = [] ∧
    (keyEnter p m).m.prompt.Count = 0 ∧
    (fitsInt (m.prompt.Line + Int.tdiv m.prompt.Count m.client.Width + 1) →
      fitsInt (m.client.Lines0 - 1) →
      (keyEnter p m).m.prompt.Line =
        min (m.prompt.Line + Int.tdiv m.prompt.Count m.client.Width + 1)
          (m.client.Lines0 - 1)) := by
  have hrecv : p.isSend = true → m.client.Sources ≠ [] := by simp [hsend]
  have hissued := issued_plain p m hacc hadd hrecv hw
  rw [keyEnter_plain p m hacc hadd hrecv hw] at *
  refine ⟨by simp, ?_, ?_, ?_, ?_, by simp, by simp, ?_⟩
  · rw [hissued]
    simp only [hpay, hres, outgoing_append, outgoing_promptEffects, outgoing_resultEffects]
    rfl
  · rw [showResult_remote]
    simp only [hres]
    rw [if_neg (show ¬ 0 < "".utf8ByteSize by decide)]
    simp [hpay, addLocal]
  · simp [hpay, addLocal]
  · simp [hpay, addLocal, hbuf]
  · intro hfit hbot
    simp only [showResult_prompt, advancePrompt_prompt, addLocal, emit_client, emit_prompt, hpay]
    rw [nextLine_eq_min _ _ (by simpa using hfit) (by simpa using hbot)]
    simp

/-- Witness of the amended C3: Enter on an empty prompt at start-up. -/
theorem empty_line_effect_witness :
    (keyEnter emptyLine startMachine).panicked = false ∧
    outgoing (issued emptyLine startMachine) = [] ∧
    (keyEnter emptyLine startMachine).m.client.Buffers1 = startMachine.client.Buffers1 ∧
    (keyEnter emptyLine startMachine).m.client.Sources = startMachine.client.Sources ∧
    (keyEnter emptyLine startMachine).m.client.Buffers0 =
      startMachine.client.Buffers0.Add none [] ∧
    (keyEnter emptyLine startMachine).m.prompt.Buffer = [] ∧
    (keyEnter emptyLine startMachine).m.prompt.Count = 0 ∧
    (fitsInt (startMachine.prompt.Line +
        Int.tdiv startMachine.prompt.Count startMachine.client.Width + 1) →
      fitsInt (startMachine.client.Lines0 - 1) →
      (keyEnter emptyLine startMachine).m.prompt.Line =
        min (startMachine.prompt.Line +
          Int.tdiv startMachine.prompt.Count startMachine.client.Width + 1)
          (startMachine.client.Lines0 - 1)) :=
  empty_line_effect emptyLine startMachine rfl rfl rfl rfl rfl rfl (by decide)

/-- Counterexample to C4 as stated: an accepted add-peer directive whose address
argument `zz` fails to decode. The transport's `AddPssPeer` is invoked all the
same, with the zero address, and the handler adds no error text to the result
string, which stays the empty one the command processor returned. -/
theorem bad_hex_still_adds_peer :
    addBadHex.err = none ∧ addBadHex.isAdd = true ∧ addBadHex.cmd[1]? = some "zz" ∧
    (hexDecodeString "zz").2 = true ∧
    peerAdds (issued addBadHex startMachine) = [List.replicate 32 0] ∧
    (keyEnter addBadHex startMachine).res = "" := by
  decide

/-- C4, amended: for every accepted line classified as an add-peer directive
with an address argument, whether or not that argument is valid hex, the handler
invokes `AddPssPeer` exactly once, with the zero address overwritten by the bytes
that hex decoding produced before any failure, and its result string is the one
the command processor returned. -/
theorem add_invokes_transport (p : Submission) (m : Machine) (a : String)
    (hacc : p.err = none) (hadd : p.isAdd = true) (harg : p.cmd[1]? = some a) :
    peerAdds (issued p m) = [copyAddress (hexDecodeString a).1] ∧
    (keyEnter p m).res = p.res := by
  obtain ⟨tl, htl, _, _, hpeer, hres⟩ := keyEnter_after_dispatch p m hacc
  have hd : dispatch p m.prompt.Buffer m =
      ⟨emit (.addPssPeer (copyAddress (hexDecodeString a).1)) m, p.res, none, false⟩ := by
    simp [dispatch, hadd, harg]
  rw [hd] at htl hres
  constructor
  · rw [issued_of_trace p m ([Effect.addPssPeer (copyAddress (hexDecodeString a).1)] ++ tl)
      (by rw [htl, emit_trace, List.append_assoc]), peerAdds_append, hpeer]
    rfl
  · exact hres

/-- Witness of the amended C4: the add-peer directive with the argument `zz`. -/
theorem add_invokes_transport_witness :
    peerAdds (issued addBadHex startMachine) = [copyAddress (hexDecodeString "zz").1] ∧
    (keyEnter addBadHex startMachine).res = addBadHex.res :=
  add_invokes_transport addBadHex startMachine "zz" rfl rfl rfl

/-! ## The screen update loop -/

/-- C6, evaluated with local height 3 and remote height 2: the remote trigger
calls `updateView` with the bounds 4 and 2 and then flushes. The claim's bounds
are top = L0 + 1 = 4 and bottom = L0 + L1 = 5, the rows 4 and 5; with the bounds
the code passes no row lies between top and bottom. The local trigger, two cases
above, does pass its bottom row: the bounds 0 and L0 - 1 = 2, the rows 0 to 2. -/
theorem remote_repaint_last_bound :
    startMachine.client.Lines0 = 3 ∧ startMachine.client.Lines1 = 2 ∧
    (renderStep .otherC startMachine.client startMachine.prompt).calls =
      [Effect.updateView 1 4 2, Effect.flush] ∧
    (renderStep .otherC startMachine.client startMachine.prompt).calls ≠
      [Effect.updateView 1 (startMachine.client.Lines0 + 1)
        (startMachine.client.Lines0 + startMachine.client.Lines1), Effect.flush] ∧
    repaintedRows (renderStep .otherC startMachine.client startMachine.prompt).calls = [] ∧
    updateViewRows (startMachine.client.Lines0 + 1)
      (startMachine.client.Lines0 + startMachine.client.Lines1) = [4, 5] ∧
    (renderStep .meC startMachine.client startMachine.prompt).calls =
      [Effect.updateView 0 0 2, Effect.flush] ∧
    repaintedRows (renderStep .meC startMachine.client startMachine.prompt).calls =
      [0, 1, 2] := by
  decide

/-- Counterexample to C7 as stated: count 4, width 4, and the prompt on the last
row an `int` can number. The cursor row the loop passes to `SetCursor` is not
line + count / width, which is `2 ^ 63`, but the smallest `int`, and count is not
(row - line) * width + column. -/
theorem cursor_row_wraps :
    0 ≤ promptAtMaxLine.Count ∧ 0 < startMachine.client.Width ∧
    fitsInt promptAtMaxLine.Line ∧
    renderStep .promptC startMachine.client promptAtMaxLine =
      ⟨[Effect.setCursor 0 minInt, Effect.flush], true, false⟩ ∧
    promptAtMaxLine.Line + promptAtMaxLine.Count / startMachine.client.Width =
      9223372036854775808 ∧
    promptAtMaxLine.Count ≠
      (minInt - promptAtMaxLine.Line) * startMachine.client.Width + 0 := by
  decide

/-- C7, amended: for every prompt state with count >= 0 and every width > 0 such
that line + count / width is within the range of Go's 64-bit int, a prompt
trigger makes the render loop set the cursor to exactly (count mod width, line +
count / width) and flush, with no call of `updateView`; the cursor column is
therefore in [0, width) and count = (row - line) * width + column. -/
theorem prompt_trigger_cursor (c : TalkClient) (p : Prompt)
    (hc : 0 ≤ p.Count) (hw : 0 < c.Width) (hfit : fitsInt (p.Line + p.Count / c.Width)) :
    renderStep .promptC c p =
      ⟨[Effect.setCursor (p.Count % c.Width) (p.Line + p.Count / c.Width), Effect.flush],
        true, false⟩ ∧
    repaints (renderStep .promptC c p).calls = [] ∧
    0 ≤ p.Count % c.Width ∧ p.Count % c.Width < c.Width ∧
    p.Count = ((p.Line + p.Count / c.Width) - p.Line) * c.Width + p.Count % c.Width := by
  have hstep : renderStep .promptC c p =
      ⟨[Effect.setCursor (p.Count % c.Width) (p.Line + p.Count / c.Width), Effect.flush],
        true, false⟩ := by
    have hne : c.Width ≠ 0 := by omega
    have hrow : goAdd p.Line (goDiv p.Count c.Width) = p.Line + p.Count / c.Width := by
      unfold goAdd goDiv
      rw [Int.tdiv_eq_ediv hc (le_of_lt hw), wrapInt_add_wrapInt, wrapInt_of_fits _ hfit]
    simp only [renderStep, hne, if_false, hrow, goMod]
    rw [Int.tmod_eq_emod hc (le_of_lt hw)]
  refine ⟨hstep, ?_, Int.emod_nonneg _ (by omega), Int.emod_lt_of_pos _ hw, ?_⟩
  · rw [hstep]
    rfl
  · have := Int.ediv_add_emod p.Count c.Width
    rw [add_sub_cancel_left, mul_comm]
    exact this.symm

/-- Witness of the amended C7: seven characters typed on row 1 of a terminal four
columns wide. -/
theorem prompt_trigger_cursor_witness :
    renderStep .promptC startMachine.client ⟨[], 7, 1⟩ =
      ⟨[Effect.setCursor (7 % startMachine.client.Width) (1 + 7 / startMachine.client.Width),
        Effect.flush], true, false⟩ ∧
    repaints (renderStep .promptC startMachine.client ⟨[], 7, 1⟩).calls = [] ∧
    (0 : Int) ≤ 7 % startMachine.client.Width ∧
    7 % startMachine.client.Width < startMachine.client.Width ∧
    (7 : Int) = ((1 + 7 / startMachine.client.Width) - 1) * startMachine.client.Width +
      7 % startMachine.client.Width :=
  prompt_trigger_cursor startMachine.client ⟨[], 7, 1⟩ (by decide) (by decide) (by decide)

/-! ## The send workers -/

theorem sum_map_set {α : Type} (f : α → Nat) (l : List α) (i : Nat) (w v : α)
    (hi : l[i]? = some w) :
    ((l.set i v).map f).sum + f w = (l.map f).sum + f v := by
  induction l generalizing i with
  | nil => simp at hi
  | cons x xs ih =>
    cases i with
    | zero =>
      simp only [List.getElem?_cons_zero, Option.some.injEq] at hi
      subst hi
      simp only [List.set_cons_zero, List.map_cons, List.sum_cons]
      omega
    | succ n =>
      simp only [List.getElem?_cons_succ] at hi
      have := ih n hi
      simp only [List.set_cons_succ, List.map_cons, List.sum_cons]
      omega

theorem handled_receiving (msg : chatMsg) (w : SendWorker) (h : w.pc = .receiving) :
    w.handled msg = w.sent.count msg := by
  simp [SendWorker.handled, SendWorker.holds, h]

theorem handled_sending (msg m : chatMsg) (sent : List chatMsg) (d : Bool) :
    SendWorker.handled msg ⟨.sending m, sent, d⟩ =
      (if m = msg then 1 else 0) + sent.count msg := by
  by_cases hm : m = msg <;> simp [SendWorker.handled, SendWorker.holds, hm]

theorem handled_after_send (msg m : chatMsg) (sent : List chatMsg) (d fails : Bool) :
    SendWorker.handled msg
      (if fails then ⟨.exited, sent ++ [m], true⟩ else ⟨.receiving, sent ++ [m], d⟩) =
      (if m = msg then 1 else 0) + sent.count msg := by
  cases fails <;> by_cases hm : m = msg <;>
    simp [SendWorker.handled, SendWorker.holds, hm, List.count_append, List.count_cons] <;> omega

theorem count_cons_ite (msg m : chatMsg) (rest : List chatMsg) :
    (m :: rest).count msg = rest.count msg + (if m = msg then 1 else 0) := by
  by_cases hm : m = msg <;> simp [List.count_cons, hm]

/-- A move neither creates nor loses a copy of a payload, and keeps the number of
workers. -/
theorem step_accounted (a : Action) (r r2 : Router) (msg : chatMsg)
    (h : step a r = some r2) :
    accounted msg r2 = accounted msg r ∧ r2.workers.length = r.workers.length := by
  cases a with
  | receive i =>
    unfold step at h
    simp only at h
    split at h
    · rename_i m rest w hpend hw
      split at h
      · rename_i hpc
        simp only [Option.some.injEq] at h
        subst h
        have hs := sum_map_set (SendWorker.handled msg) r.workers i w
          ⟨.sending m, w.sent, w.dropped⟩ hw
        rw [handled_receiving msg w hpc, handled_sending] at hs
        simp only [accounted, hpend, List.length_set, and_true, count_cons_ite]
        omega
      · simp at h
    · simp at h
  | send i fails =>
    unfold step at h
    simp only at h
    split at h
    · rename_i m sent dropped hw
      simp only [Option.some.injEq] at h
      subst h
      have hs := sum_map_set (SendWorker.handled msg) r.workers i
        ⟨.sending m, sent, dropped⟩
        (if fails then ⟨.exited, sent ++ [m], true⟩ else ⟨.receiving, sent ++ [m], dropped⟩) hw
      rw [handled_sending, handled_after_send] at hs
      simp only [accounted, List.length_set, and_true]
      omega
    · simp at h

/-- Along a schedule no copy of a payload is created or lost. -/
theorem run_accounted (sched : List Action) (r r2 : Router) (msg : chatMsg)
    (h : run sched r = some r2) :
    accounted msg r2 = accounted msg r ∧ r2.workers.length = r.workers.length := by
  induction sched generalizing r with
  | nil =>
    simp only [run, Option.some.injEq] at h
    subst h
    exact ⟨rfl, rfl⟩
  | cons a rest ih =>
    simp only [run] at h
    cases hs : step a r with
    | none => simp [hs] at h
    | some r1 =>
      simp only [hs] at h
      obtain ⟨h1, h2⟩ := step_accounted a r r1 msg hs
      obtain ⟨h3, h4⟩ := ih r1 h
      exact ⟨h3.trans h1, h4.trans h2⟩

theorem sendsOf_le_accounted (msg : chatMsg) (r : Router) : sendsOf msg r ≤ accounted msg r := by
  unfold sendsOf accounted
  have : ∀ l : List SendWorker, (l.map (fun w => w.sent.count msg)).sum ≤
      (l.map (SendWorker.handled msg)).sum := by
    intro l
    induction l with
    | nil => simp
    | cons x xs ih => simp only [List.map_cons, List.sum_cons, SendWorker.handled]; omega
  have := this r.workers
  omega

theorem sendsOf_eq_accounted (msg : chatMsg) (r : Router) (hq : quiescent r = true) :
    sendsOf msg r = accounted msg r := by
  simp only [quiescent, Bool.and_eq_true, List.isEmpty_iff, List.all_eq_true,
    Bool.not_eq_true_eq_eq_false] at hq
  obtain ⟨hp, hw⟩ := hq
  unfold sendsOf accounted
  rw [hp]
  have : ∀ l : List SendWorker, (∀ w ∈ l, w.pc.isSending = false) →
      (l.map (SendWorker.handled msg)).sum =
        (l.map (fun w => w.sent.count msg)).sum := by
    intro l hl
    induction l with
    | nil => simp
    | cons x xs ih =>
      have hx : x.holds msg = 0 := by
        have hne : x.pc ≠ WorkerPc.sending msg := by
          intro hc
          have := hl x (List.mem_cons_self _ _)
          rw [hc] at this
          exact absurd this (by simp [WorkerPc.isSending])
        simp [SendWorker.holds, hne]
      simp only [List.map_cons, List.sum_cons, SendWorker.handled, hx]
      have := ih (fun w hw2 => hl w (List.mem_cons_of_mem _ hw2))
      simp only [SendWorker.handled] at this
      omega
  rw [this r.workers hw]
  simp

/-- Counterexample to C10 as stated: two connected peers and one payload placed
on `outC`. The payload can be taken and sent (by the first worker, say), and in
whatever way the workers are scheduled, one of the two never calls `Send` with
it. -/
theorem second_worker_gets_nothing :
    run [.receive 0, .send 0 false] twoPeers =
      some ⟨[], [⟨.receiving, [firstHi], false⟩, SendWorker.fresh]⟩ ∧
    ∀ (sched : List Action) (r : Router), run sched twoPeers = some r →
      ∃ w ∈ r.workers, firstHi ∉ w.sent := by
  refine ⟨by decide, ?_⟩
  intro sched r h
  obtain ⟨hacc, hlen⟩ := run_accounted sched twoPeers r firstHi h
  have hle := sendsOf_le_accounted firstHi r
  have h1 : accounted firstHi twoPeers = 1 := by decide
  have h2 : twoPeers.workers.length = 2 := rfl
  rw [hacc, h1] at hle
  rw [h2] at hlen
  by_contra hall
  simp only [not_exists, not_and, not_not] at hall
  match hr : r.workers, hlen with
  | [w1, w2], _ =>
    have c1 : 0 < w1.sent.count firstHi := List.count_pos_iff.mpr (hall w1 (by simp [hr]))
    have c2 : 0 < w2.sent.count firstHi := List.count_pos_iff.mpr (hall w2 (by simp [hr]))
    simp only [sendsOf, hr, List.map_cons, List.map_nil, List.sum_cons, List.sum_nil] at hle
    omega

/-- C10, amended: every payload placed on the shared outgoing channel is
received by exactly one send worker, which calls `Send` with it once; there is no
fan-out. Along every schedule the copies of a payload (waiting on the channel,
held by a worker, or passed to `Send`) keep their number, so the `Send` calls
with it, over all workers, never exceed that number and reach it exactly once
nothing is left on the channel or in a worker's hands. -/
theorem payload_sent_once (sched : List Action) (r r2 : Router) (msg : chatMsg)
    (h : run sched r = some r2) :
    accounted msg r2 = accounted msg r ∧
    sendsOf msg r2 ≤ accounted msg r ∧
    (quiescent r2 = true → sendsOf msg r2 = accounted msg r) := by
  obtain ⟨hacc, _⟩ := run_accounted sched r r2 msg h
  refine ⟨hacc, ?_, ?_⟩
  · rw [← hacc]
    exact sendsOf_le_accounted msg r2
  · intro hq
    rw [← hacc]
    exact sendsOf_eq_accounted msg r2 hq

/-- Witness of the amended C10: two peers, one payload, the first worker takes
and sends it. -/
theorem payload_sent_once_witness :
    accounted firstHi ⟨[], [⟨.receiving, [firstHi], false⟩, SendWorker.fresh]⟩ =
      accounted firstHi twoPeers ∧
    sendsOf firstHi ⟨[], [⟨.receiving, [firstHi], false⟩, SendWorker.fresh]⟩ ≤
      accounted firstHi twoPeers ∧
    (quiescent ⟨[], [⟨.receiving, [firstHi], false⟩, SendWorker.fresh]⟩ = true →
      sendsOf firstHi ⟨[], [⟨.receiving, [firstHi], false⟩, SendWorker.fresh]⟩ =
        accounted firstHi twoPeers) :=
  payload_sent_once [.receive 0, .send 0 false] twoPeers
    ⟨[], [⟨.receiving, [firstHi], false⟩, SendWorker.fresh]⟩ firstHi (by decide)

/-! ## Serials -/

theorem uint64_of_length (n : Nat) (h : n < 2 ^ 64) : uint64 (n : Int) = n := by
  unfold uint64
  rw [Int.emod_eq_of_lt (by omega) (by exact_mod_cast h)]
  simp

theorem enter_trace (r : Round) (m : Machine) : (r.enter m).trace = m.trace := rfl

theorem enter_local (r : Round) (m : Machine) :
    (r.enter m).client.Buffers0 = m.client.Buffers0 := rfl

/-- The three-way branch sends at most one payload; when it sends one, the serial
is the count read before the echo, and the echo adds one entry. -/
theorem dispatch_step (p : Submission) (line : List Rune) (m : Machine) :
    ∃ hd, (dispatch p line m).m.trace = m.trace ++ hd ∧
      m.client.Buffers0.Buffer.length ≤ (dispatch p line m).m.client.Buffers0.Buffer.length ∧
      (outgoing hd = [] ∨
        ∃ msg, outgoing hd = [msg] ∧ msg.Serial = uint64 m.client.Buffers0.Count ∧
          (dispatch p line m).m.client.Buffers0.Buffer.length =
            m.client.Buffers0.Buffer.length + 1) := by
  unfold dispatch
  split
  · split
    · exact ⟨[], by simp, le_refl _, Or.inl rfl⟩
    · exact ⟨[_], rfl, le_refl _, Or.inl rfl⟩
  · split
    · exact ⟨[], by simp, le_refl _, Or.inl rfl⟩
    · by_cases hp : p.payload = ""
      · refine ⟨[Effect.bufAdd 0 none line], ?_, ?_, Or.inl rfl⟩
        · simp [hp, addLocal]
        · simp [hp, addLocal, TalkBuffer.Add]
      · refine ⟨[Effect.outC ⟨uint64 m.client.Buffers0.Count, bytesOf p.payload,
          p.randomSrc.Nick⟩, Effect.bufAdd 0 none line], ?_, ?_, Or.inr ⟨_, rfl, rfl, ?_⟩⟩
        · simp [hp, addLocal]
        · simp [hp, addLocal, TalkBuffer.Add]
        · simp [hp, addLocal, TalkBuffer.Add]

/-- One handling of Enter: the trace grows, the local Scroll Buffer does not
shrink, and at most one payload is sent, numbered by the count before the echo. -/
theorem keyEnter_step (p : Submission) (m : Machine) :
    ∃ evs, (keyEnter p m).m.trace = m.trace ++ evs ∧
      m.client.Buffers0.Buffer.length ≤ (keyEnter p m).m.client.Buffers0.Buffer.length ∧
      (outgoing evs = [] ∨
        ∃ msg, outgoing evs = [msg] ∧ msg.Serial = uint64 m.client.Buffers0.Count ∧
          (keyEnter p m).m.client.Buffers0.Buffer.length =
            m.client.Buffers0.Buffer.length + 1) := by
  cases hacc : p.err with
  | some e =>
    refine ⟨resultEffects p.res, keyEnter_rejected_trace p m e hacc, ?_,
      Or.inl (outgoing_resultEffects _)⟩
    rw [keyEnter_rejected p m e hacc, showResult_local]
  | none =>
    obtain ⟨tl, htl, hout, hloc, _, _⟩ := keyEnter_after_dispatch p m hacc
    obtain ⟨hd, hhd, hle, hcase⟩ := dispatch_step p m.prompt.Buffer m
    refine ⟨hd ++ tl, by rw [htl, hhd, List.append_assoc], by rw [hloc]; exact hle, ?_⟩
    rw [outgoing_append, hout, List.append_nil, hloc]
    exact hcase

theorem runEnters_stop (r : Round) (rs : List Round) (m : Machine)
    (hp : (keyEnter r.sub (r.enter m)).panicked = true) :
    runEnters (r :: rs) m = (keyEnter r.sub (r.enter m)).m := by
  simp [runEnters, hp]

theorem runEnters_go (r : Round) (rs : List Round) (m : Machine)
    (hp : ¬ (keyEnter r.sub (r.enter m)).panicked = true) :
    runEnters (r :: rs) m = runEnters rs (keyEnter r.sub (r.enter m)).m := by
  simp [runEnters, hp]

/-- Along a run of submissions the serials sent are non-decreasing and each is at
least the number of entries the local Scroll Buffer held at the start. -/
theorem runEnters_serials (rs : List Round) (m : Machine) :
    ∃ evs, (runEnters rs m).trace = m.trace ++ evs ∧
      m.client.Buffers0.Buffer.length ≤ (runEnters rs m).client.Buffers0.Buffer.length ∧
      ((runEnters rs m).client.Buffers0.Buffer.length < 2 ^ 64 →
        List.Pairwise (fun a b => a ≤ b) ((outgoing evs).map chatMsg.Serial) ∧
        ∀ s ∈ (outgoing evs).map chatMsg.Serial, m.client.Buffers0.Buffer.length ≤ s) := by
  induction rs generalizing m with
  | nil => exact ⟨[], by simp [runEnters], le_refl _, fun _ => by simp [outgoing]⟩
  | cons r rs ih =>
    obtain ⟨evs1, ht1, hle1, hcase⟩ := keyEnter_step r.sub (r.enter m)
    rw [enter_trace] at ht1
    rw [enter_local] at hle1 hcase
    have hfirst : (keyEnter r.sub (r.enter m)).m.client.Buffers0.Buffer.length < 2 ^ 64 →
        ∀ s ∈ (outgoing evs1).map chatMsg.Serial,
          s = m.client.Buffers0.Buffer.length ∧
          s < (keyEnter r.sub (r.enter m)).m.client.Buffers0.Buffer.length := by
      intro hb s hs
      rcases hcase with h0 | ⟨msg, hmsg, hser, hlen⟩
      · simp [h0] at hs
      · simp only [hmsg, List.map_cons, List.map_nil, List.mem_singleton] at hs
        subst hs
        have : uint64 m.client.Buffers0.Count = m.client.Buffers0.Buffer.length :=
          uint64_of_length _ (by omega)
        rw [hser, this]
        omega
    have hpair1 : List.Pairwise (fun a b => a ≤ b) ((outgoing evs1).map chatMsg.Serial) := by
      rcases hcase with h0 | ⟨msg, hmsg, _, _⟩
      · simp [h0]
      · simp [hmsg]
    by_cases hp : (keyEnter r.sub (r.enter m)).panicked = true
    · rw [runEnters_stop r rs m hp]
      refine ⟨evs1, ht1, hle1, ?_⟩
      intro hb
      exact ⟨hpair1, fun s hs => le_of_eq (hfirst hb s hs).1.symm⟩
    · obtain ⟨evs2, ht2, hle2, hrest⟩ := ih (keyEnter r.sub (r.enter m)).m
      rw [runEnters_go r rs m hp]
      refine ⟨evs1 ++ evs2, by rw [ht2, ht1, List.append_assoc], by omega, ?_⟩
      · intro hb
        obtain ⟨hpair2, hlow2⟩ := hrest hb
        have hf := hfirst (by omega)
        rw [outgoing_append, List.map_append]
        refine ⟨List.pairwise_append.mpr ⟨hpair1, hpair2, ?_⟩, ?_⟩
        · intro a ha b hbm
          have := (hf a ha).2
          have := hlow2 b hbm
          omega
        · intro s hs
          rcases List.mem_append.mp hs with h | h
          · exact le_of_eq (hf s h).1.symm
          · have := hlow2 s h
            omega

/-- C5: for every submission that dispatches a message (accepted, not an add
directive, not a send without receivers, non-empty payload), exactly one payload
is sent on `outC` and its Serial is the number of entries the local Scroll Buffer
holds at that moment, the line's own echo being appended only afterwards; and
over any sequence of submissions the serials of the messages dispatched, in the
order sent, never decrease. Counts stay below 2 ^ 64, the range of a `uint64`. -/
theorem serial_is_local_count (p : Submission) (m : Machine)
    (hacc : p.err = none) (hadd : p.isAdd = false)
    (hrecv : p.isSend = true → m.client.Sources ≠ []) (hpay : p.payload ≠ "")
    (hlen : m.client.Buffers0.Buffer.length < 2 ^ 64) :
    outgoing (issued p m) =
      [⟨m.client.Buffers0.Buffer.length, bytesOf p.payload, p.randomSrc.Nick⟩] ∧
    (keyEnter p m).m.client.Buffers0 = m.client.Buffers0.Add none m.prompt.Buffer ∧
    (m.client.Width ≠ 0 → (keyEnter p m).panicked = false) ∧
    ∀ (rs : List Round) (m0 : Machine),
      (runEnters rs m0).client.Buffers0.Buffer.length < 2 ^ 64 →
        List.Pairwise (fun a b => a ≤ b) (serialsOf rs m0) := by
  obtain ⟨tl, htl, hout, hloc, _, _⟩ := keyEnter_after_dispatch p m hacc
  have hd := dispatch_plain p m.prompt.Buffer m hadd hrecv
  simp only [hpay, ne_eq, not_false_eq_true, if_true] at hd
  rw [hd] at htl hloc
  refine ⟨?_, ?_, ?_, ?_⟩
  · rw [issued_of_trace p m ([Effect.outC ⟨uint64 m.client.Buffers0.Count, bytesOf p.payload,
        p.randomSrc.Nick⟩, Effect.bufAdd 0 none m.prompt.Buffer] ++ tl)
      (by rw [htl]; simp [addLocal]), outgoing_append, hout]
    simp only [outgoing, List.append_nil, TalkBuffer.Count, uint64_of_length _ hlen]
  · rw [hloc]
    rfl
  · intro hw
    rw [keyEnter_plain p m hacc hadd hrecv hw]
    simp
  · intro rs m0 hb
    obtain ⟨evs, ht, _, hser⟩ := runEnters_serials rs m0
    unfold serialsOf
    rw [ht, List.drop_left]
    exact (hser hb).1

/-- Witness of C5: `hi` submitted as the first line. -/
theorem serial_is_local_count_witness :
    outgoing (issued plainHi typedHi) =
      [⟨typedHi.client.Buffers0.Buffer.length, bytesOf plainHi.payload,
        plainHi.randomSrc.Nick⟩] ∧
    (keyEnter plainHi typedHi).m.client.Buffers0 =
      typedHi.client.Buffers0.Add none typedHi.prompt.Buffer ∧
    (typedHi.client.Width ≠ 0 → (keyEnter plainHi typedHi).panicked = false) ∧
    ∀ (rs : List Round) (m0 : Machine),
      (runEnters rs m0).client.Buffers0.Buffer.length < 2 ^ 64 →
        List.Pairwise (fun a b => a ≤ b) (serialsOf rs m0) :=
  serial_is_local_count plainHi typedHi rfl rfl (by decide) (by decide) (by decide)

end PssTalk
